import Mathlib

/-!
Verification of the cykura/sdk swap-engine core against its specification.

The TypeScript source operates on JSBI arbitrary-precision integers; we embed
those as `Int`.  JSBI semantics modelled here:
  * `JSBI.divide` / `JSBI.remainder` are truncated (round toward zero) and
    throw on a zero divisor — modelled as `Except` with `Int.tdiv` / `Int.tmod`;
  * `JSBI.signedRightShift` is an arithmetic shift, i.e. floor division by a
    power of two;
  * `JSBI.leftShift` is multiplication by a power of two;
  * `JSBI.bitwiseAnd` / `bitwiseOr` use two's-complement semantics on negative
    operands.
Fallible code (`invariant(...)` from tiny-invariant, which throws) is modelled
with `Except String`.
-/

/-- Error message of a failed tiny-invariant call that passes no message. -/
def errInvariant : String := "Invariant failed"

/-- Error raised by JSBI on division by zero. -/
def errDivisionByZero : String := "Division by zero"

/-- Message of the tick-range invariant in getSqrtRatioAtTick. -/
def errTick : String := "TICK"

/-- Message of the sqrt-price-range invariant in getTickAtSqrtRatio. -/
def errSqrtRatioRange : String := "SQRT_RATIO"

/-- Message of the fee invariant in the Pool constructor. -/
def errFee : String := "FEE"

/-- Message of the price-bounds invariant in the Pool constructor. -/
def errPriceBounds : String := "PRICE_BOUNDS"

/-- Message of the nonzero-amount invariant in Pool.swap. -/
def errAmountZero : String := "AMOUNT_LESS_THAN_0"

/-- Message of the lower price-limit invariant in Pool.swap. -/
def errRatioMin : String := "RATIO_MIN"

/-- Message of the upper price-limit invariant in Pool.swap. -/
def errRatioMax : String := "RATIO_MAX"

/-- Message of the price-limit-vs-current invariant in Pool.swap. -/
def errRatioCurrent : String := "RATIO_CURRENT"

/-- Error thrown by the budgeted Pool.swap variant when the loop budget is
exhausted (`throw Error('account limit')`). -/
def errAccountLimit : String := "account limit"

/-- Models reading a TypeScript `Partial<>` field asserted non-null with `!`
when it was never assigned (the assertion is wrong in that case). -/
def errUnset : String := "non-null assertion failed"

/-- Models `JSBI.divide`: truncated division, throwing on zero divisor. -/
def jsbiDiv (a b : Int) : Except String Int :=
  if b = 0 then .error errDivisionByZero else .ok (Int.tdiv a b)

/-- Models `JSBI.remainder`: truncated remainder, throwing on zero divisor. -/
def jsbiRem (a b : Int) : Except String Int :=
  if b = 0 then .error errDivisionByZero else .ok (Int.tmod a b)

/-- Models `JSBI.leftShift` by a nonnegative shift amount. -/
def jsbiShl (a : Int) (n : Nat) : Int := a * 2 ^ n

/-- Models `JSBI.signedRightShift` (arithmetic shift = floor division). -/
def jsbiShr (a : Int) (n : Nat) : Int := Int.fdiv a (2 ^ n)

/-- Models `JSBI.bitwiseAnd` with two's-complement semantics: a negative
number `-(m+1)` has the bit pattern of the complement of `m`. -/
def jsbiAnd : Int → Int → Int
  | .ofNat a, .ofNat b => .ofNat (a &&& b)
  | .negSucc a, .ofNat b => .ofNat (b - (b &&& a))
  | .ofNat a, .negSucc b => .ofNat (a - (a &&& b))
  | .negSucc a, .negSucc b => .negSucc (a ||| b)

/-- Models `JSBI.bitwiseOr` with two's-complement semantics. -/
def jsbiOr : Int → Int → Int
  | .ofNat a, .ofNat b => .ofNat (a ||| b)
  | .negSucc a, .ofNat b => .negSucc (a - (a &&& b))
  | .ofNat a, .negSucc b => .negSucc (b - (b &&& a))
  | .negSucc a, .negSucc b => .negSucc (a &&& b)

/-- Ceiling of the exact rational `p / d` (for any nonzero `d`). -/
def ceilDiv (p d : Int) : Int := -(Int.fdiv (-p) d)

/-- Constants from src/internalConstants.ts. -/
def NEGATIVE_ONE : Int := -1

/-- Q32 fixed-point unit, `2 ^ 32`. -/
def Q32 : Int := 2 ^ 32

/-- Q64 constant, `Q32 ^ 2 = 2 ^ 64`.  Note: this is a single bit at
position 64, not a low-bit mask. -/
def Q64 : Int := Q32 ^ 2

/-- MaxUint128 from sdk-core: `2 ^ 128 - 1`. -/
def MaxUint128 : Int := 2 ^ 128 - 1

namespace FullMath

/-- Modelled from the spec: the file `src/utils/fullMath.ts` is missing from
the sources (only callers are present).  Per spec section 4.3 and 9, FullMath
provides full-precision multiply-then-divide with ceiling rounding:
`mulDivRoundingUp(a, b, d) = ceil(a * b / d)`, throwing on zero divisor. -/
def mulDivRoundingUp (a b denominator : Int) : Except String Int :=
  if denominator = 0 then .error errDivisionByZero
  else .ok (ceilDiv (a * b) denominator)

end FullMath

namespace TickMath

/-- The minimum tick that can be used on any pool (src/utils/tickMath.ts). -/
def MIN_TICK : Int := -221818

/-- The maximum tick, defined in the source as `-MIN_TICK`. -/
def MAX_TICK : Int := -MIN_TICK

/-- MIN_SQRT_RATIO in the source: sqrt ratio of the minimum tick. -/
def MIN_SQRT_RATIO_X32 : Int := 65536

/-- MAX_SQRT_RATIO in the source: sqrt ratio of the maximum tick. -/
def MAX_SQRT_RATIO_X32 : Int := 281474976710656

/-- mulShift from src/utils/tickMath.ts: multiply and then arithmetic right
shift by 128 bits (as literally written in the source). -/
def mulShift (val : Int) (mulBy : Int) : Int := jsbiShr (val * mulBy) 128

/-- getSqrtRatioAtTick from src/utils/tickMath.ts: binary exponentiation
ladder over the bits of `|tick|`, inversion through MaxUint128 for positive
ticks, and final rescale to Q32 rounding up.  `Number.isInteger(tick)` is
always true in the `Int` model. -/
def getSqrtRatioAtTick (tick : Int) : Except String Int := do
  if MIN_TICK ≤ tick ∧ tick ≤ MAX_TICK then pure () else throw errTick
  let absTick : Int := if tick < 0 then tick * (-1) else tick
  let ratio : Int :=
    if jsbiAnd absTick 0x1 ≠ 0 then 0xfffcb933bd6fb800 else 0x10000000000000000
  let ratio := if jsbiAnd absTick 0x2 ≠ 0 then mulShift ratio 0xfff97272373d4000 else ratio
  let ratio := if jsbiAnd absTick 0x4 ≠ 0 then mulShift ratio 0xfff2e50f5f657000 else ratio
  let ratio := if jsbiAnd absTick 0x8 ≠ 0 then mulShift ratio 0xffe5caca7e10f000 else ratio
  let ratio := if jsbiAnd absTick 0x10 ≠ 0 then mulShift ratio 0xffcb9843d60f7000 else ratio
  let ratio := if jsbiAnd absTick 0x20 ≠ 0 then mulShift ratio 0xff973b41fa98e800 else ratio
  let ratio := if jsbiAnd absTick 0x40 ≠ 0 then mulShift ratio 0xff2ea16466c9b000 else ratio
  let ratio := if jsbiAnd absTick 0x80 ≠ 0 then mulShift ratio 0xfe5dee046a9a3800 else ratio
  let ratio := if jsbiAnd absTick 0x100 ≠ 0 then mulShift ratio 0xfcbe86c7900bb000 else ratio
  let ratio := if jsbiAnd absTick 0x200 ≠ 0 then mulShift ratio 0xf987a7253ac65800 else ratio
  let ratio := if jsbiAnd absTick 0x400 ≠ 0 then mulShift ratio 0xf3392b0822bb6000 else ratio
  let ratio := if jsbiAnd absTick 0x800 ≠ 0 then mulShift ratio 0xe7159475a2caf000 else ratio
  let ratio := if jsbiAnd absTick 0x1000 ≠ 0 then mulShift ratio 0xd097f3bdfd2f2000 else ratio
  let ratio := if jsbiAnd absTick 0x2000 ≠ 0 then mulShift ratio 0xa9f746462d9f8000 else ratio
  let ratio := if jsbiAnd absTick 0x4000 ≠ 0 then mulShift ratio 0x70d869a156f31c00 else ratio
  let ratio := if jsbiAnd absTick 0x8000 ≠ 0 then mulShift ratio 0x31be135f97ed3200 else ratio
  let ratio := if jsbiAnd absTick 0x10000 ≠ 0 then mulShift ratio 0x9aa508b5b85a500 else ratio
  let ratio := if jsbiAnd absTick 0x20000 ≠ 0 then mulShift ratio 0x5d6af8dedc582c else ratio
  let ratio ← if tick > 0 then jsbiDiv MaxUint128 ratio else pure ratio
  let r ← jsbiRem ratio Q32
  let q ← jsbiDiv ratio Q32
  if r > 0 then pure (q + 1) else pure q

/-- Modelled from the spec: `src/utils/mostSignificantBit.ts` is missing from
the sources.  Per spec section 4.1 it locates the most-significant-bit
position of a positive value; fuel-based floor log2. -/
def msbAux : Nat → Nat → Nat
  | 0, _ => 0
  | fuel + 1, n => if n ≤ 1 then 0 else msbAux fuel (n / 2) + 1

/-- Modelled from the spec: most-significant-bit position (floor log2). -/
def mostSignificantBit (x : Int) : Int := Int.ofNat (msbAux 128 x.toNat)

/-- One round of the square-then-shift log2 bit extraction loop of
getTickAtSqrtRatio (loop body for index `i`). -/
def logStep (i : Nat) (p : Int × Int) : Int × Int :=
  let r := jsbiShr (p.1 * p.1) 63
  let f := jsbiShr r 64
  (jsbiShr r f.toNat, jsbiOr p.2 (jsbiShl f (31 - i)))

/-- The 14-round loop of getTickAtSqrtRatio, starting at index `i`. -/
def logRounds : Nat → Nat → Int × Int → Int × Int
  | _, 0, p => p
  | i, count + 1, p => logRounds (i + 1) count (logStep i p)

/-- getTickAtSqrtRatio from src/utils/tickMath.ts. -/
def getTickAtSqrtRatio (sqrtRatioX32 : Int) : Except String Int := do
  if MIN_SQRT_RATIO_X32 ≤ sqrtRatioX32 ∧ sqrtRatioX32 < MAX_SQRT_RATIO_X32 then pure ()
  else throw errSqrtRatioRange
  let sqrtRatioX64 := jsbiShl sqrtRatioX32 32
  let msb := mostSignificantBit sqrtRatioX64
  let r : Int :=
    if msb ≥ 64 then jsbiShr sqrtRatioX64 (msb - 63).toNat
    else jsbiShl sqrtRatioX64 (63 - msb).toNat
  let log2 : Int := jsbiShl (msb - 64) 64
  let (_, log2) := logRounds 0 14 (r, log2)
  let logSqrt10001 := log2 * 908567298
  let tickLow := jsbiShr (logSqrt10001 - 42949672) 32
  let tickHigh := jsbiShr (logSqrt10001 + 3677218864) 32
  if tickLow = tickHigh then pure tickLow
  else do
    let ratioHigh ← getSqrtRatioAtTick tickHigh
    pure (if ratioHigh ≤ sqrtRatioX32 then tickHigh else tickLow)

/-- Round trip of spec section 8: feed the sqrt ratio of a tick back into the
tick recovery function. -/
def roundTrip (tick : Int) : Except String Int := do
  let r ← getSqrtRatioAtTick tick
  getTickAtSqrtRatio r

end TickMath

namespace LiquidityMath

/-- addDelta from src/utils/liquidityMath.ts: applies a signed delta to the
liquidity; the underflow/overflow invariants are commented out in the
source, so the function is total. -/
def addDelta (x y : Int) : Int :=
  if y < 0 then x - y * NEGATIVE_ONE else x + y

end LiquidityMath

namespace SqrtPriceMath

/-- multiplyIn128 from src/utils/sqrtPriceMath.ts — note the mask operand is
`Q64 = 2 ^ 64` (a single bit), exactly as written in this source variant. -/
def multiplyIn128 (x y : Int) : Int := jsbiAnd (x * y) Q64

/-- addIn128 from src/utils/sqrtPriceMath.ts, masked with `Q64` as written. -/
def addIn128 (x y : Int) : Int := jsbiAnd (x + y) Q64

/-- getAmount0Delta from src/utils/sqrtPriceMath.ts. -/
def getAmount0Delta (sqrtRatioAX32 sqrtRatioBX32 liquidity : Int) (roundUp : Bool) :
    Except String Int := do
  let (sqrtRatioAX32, sqrtRatioBX32) :=
    if sqrtRatioAX32 > sqrtRatioBX32 then (sqrtRatioBX32, sqrtRatioAX32)
    else (sqrtRatioAX32, sqrtRatioBX32)
  let numerator1 := jsbiShl liquidity 32
  let numerator2 := sqrtRatioBX32 - sqrtRatioAX32
  if roundUp then do
    let inner ← FullMath.mulDivRoundingUp numerator1 numerator2 sqrtRatioBX32
    FullMath.mulDivRoundingUp inner 1 sqrtRatioAX32
  else do
    let inner ← jsbiDiv (numerator1 * numerator2) sqrtRatioBX32
    jsbiDiv inner sqrtRatioAX32

/-- getAmount1Delta from src/utils/sqrtPriceMath.ts. -/
def getAmount1Delta (sqrtRatioAX32 sqrtRatioBX32 liquidity : Int) (roundUp : Bool) :
    Except String Int := do
  let (sqrtRatioAX32, sqrtRatioBX32) :=
    if sqrtRatioAX32 > sqrtRatioBX32 then (sqrtRatioBX32, sqrtRatioAX32)
    else (sqrtRatioAX32, sqrtRatioBX32)
  if roundUp then
    FullMath.mulDivRoundingUp liquidity (sqrtRatioBX32 - sqrtRatioAX32) Q32
  else
    jsbiDiv (liquidity * (sqrtRatioBX32 - sqrtRatioAX32)) Q32

/-- getNextSqrtPriceFromAmount0RoundingUp from src/utils/sqrtPriceMath.ts.
The two fall-through returns of the `add` branch are merged into a single
else-branch of the combined condition. -/
def getNextSqrtPriceFromAmount0RoundingUp (sqrtPX32 liquidity amount : Int) (add : Bool) :
    Except String Int :=
  if amount = 0 then .ok sqrtPX32
  else
  let numerator1 := jsbiShl liquidity 32
  if add then do
    let product := multiplyIn128 amount sqrtPX32
    let check ← jsbiDiv product amount
    let denominator := addIn128 numerator1 product
    if check = sqrtPX32 ∧ denominator ≥ numerator1 then
      FullMath.mulDivRoundingUp numerator1 sqrtPX32 denominator
    else do
      let q ← jsbiDiv numerator1 sqrtPX32
      FullMath.mulDivRoundingUp numerator1 1 (q + amount)
  else do
    let product := multiplyIn128 amount sqrtPX32
    let check ← jsbiDiv product amount
    if check = sqrtPX32 then
      if numerator1 > product then
        FullMath.mulDivRoundingUp numerator1 sqrtPX32 (numerator1 - product)
      else .error errInvariant
    else .error errInvariant

/-- getNextSqrtPriceFromAmount1RoundingDown from src/utils/sqrtPriceMath.ts. -/
def getNextSqrtPriceFromAmount1RoundingDown (sqrtPX32 liquidity amount : Int) (add : Bool) :
    Except String Int := do
  if add then do
    let quotient ←
      if amount ≤ Q32 then jsbiDiv (jsbiShl amount 32) liquidity
      else jsbiDiv (amount * Q32) liquidity
    pure (sqrtPX32 + quotient)
  else do
    let quotient ← FullMath.mulDivRoundingUp amount Q32 liquidity
    if sqrtPX32 > quotient then pure (sqrtPX32 - quotient) else .error errInvariant

/-- getNextSqrtPriceFromInput from src/utils/sqrtPriceMath.ts. -/
def getNextSqrtPriceFromInput (sqrtPX32 liquidity amountIn : Int) (zeroForOne : Bool) :
    Except String Int :=
  if sqrtPX32 > 0 then
    if liquidity > 0 then
      if zeroForOne then getNextSqrtPriceFromAmount0RoundingUp sqrtPX32 liquidity amountIn true
      else getNextSqrtPriceFromAmount1RoundingDown sqrtPX32 liquidity amountIn true
    else .error errInvariant
  else .error errInvariant

/-- getNextSqrtPriceFromOutput from src/utils/sqrtPriceMath.ts. -/
def getNextSqrtPriceFromOutput (sqrtPX32 liquidity amountOut : Int) (zeroForOne : Bool) :
    Except String Int :=
  if sqrtPX32 > 0 then
    if liquidity > 0 then
      if zeroForOne then getNextSqrtPriceFromAmount1RoundingDown sqrtPX32 liquidity amountOut false
      else getNextSqrtPriceFromAmount0RoundingUp sqrtPX32 liquidity amountOut false
    else .error errInvariant
  else .error errInvariant

end SqrtPriceMath

/-- Result record of SwapMath.computeSwapStep. -/
structure SwapStepResult where
  sqrtRatioNextX32 : Int
  amountIn : Int
  amountOut : Int
  feeAmount : Int
deriving Repr, DecidableEq

namespace SwapMath

/-- MAX_FEE from src/utils/swapMath.ts: `10 ^ 6`. -/
def MAX_FEE : Int := 10 ^ 6

/-- Models a `returnValues.x!` read of a TypeScript Partial record: errors if
the field was never assigned. -/
def partialGet : Option Int → Except String Int
  | some v => .ok v
  | none => .error errUnset

/-- First phase of SwapMath.computeSwapStep (src/utils/swapMath.ts): the
initial `if (exactIn) ... else ...` block, which determines
`sqrtRatioNextX32` and the tentative `amountIn` (exact-input) or `amountOut`
(exact-output) stored in the Partial record. -/
def computeSwapStepPhase1 (sqrtRatioCurrentX32 sqrtRatioTargetX32 liquidity amountRemaining
    feePips : Int) : Except String (Int × Option Int × Option Int) := do
  if amountRemaining ≥ 0 then do
    let amountRemainingLessFee ← jsbiDiv (amountRemaining * (MAX_FEE - feePips)) MAX_FEE
    let amountIn ←
      if sqrtRatioCurrentX32 ≥ sqrtRatioTargetX32 then
        SqrtPriceMath.getAmount0Delta sqrtRatioTargetX32 sqrtRatioCurrentX32 liquidity true
      else
        SqrtPriceMath.getAmount1Delta sqrtRatioCurrentX32 sqrtRatioTargetX32 liquidity true
    if amountRemainingLessFee ≥ amountIn then
      pure (sqrtRatioTargetX32, some amountIn, none)
    else do
      let next ← SqrtPriceMath.getNextSqrtPriceFromInput sqrtRatioCurrentX32 liquidity
        amountRemainingLessFee (sqrtRatioCurrentX32 ≥ sqrtRatioTargetX32)
      pure (next, some amountIn, none)
  else do
    let amountOut ←
      if sqrtRatioCurrentX32 ≥ sqrtRatioTargetX32 then
        SqrtPriceMath.getAmount1Delta sqrtRatioTargetX32 sqrtRatioCurrentX32 liquidity false
      else
        SqrtPriceMath.getAmount0Delta sqrtRatioCurrentX32 sqrtRatioTargetX32 liquidity false
    if amountRemaining * NEGATIVE_ONE ≥ amountOut then
      pure (sqrtRatioTargetX32, none, some amountOut)
    else do
      let next ← SqrtPriceMath.getNextSqrtPriceFromOutput sqrtRatioCurrentX32 liquidity
        (amountRemaining * NEGATIVE_ONE) (sqrtRatioCurrentX32 ≥ sqrtRatioTargetX32)
      pure (next, none, some amountOut)

/-- Final amountIn assignment of computeSwapStep: keeps the phase-1 value when
the target was exactly reached in exact-input mode, otherwise recomputes the
input amount (rounded up) for the actual price movement. -/
def stepAmountIn (sqrtRatioCurrentX32 sqrtRatioTargetX32 sqrtRatioNextX32 liquidity
    amountRemaining : Int) (amountInOpt : Option Int) : Except String Int :=
  if sqrtRatioCurrentX32 ≥ sqrtRatioTargetX32 then
    if sqrtRatioTargetX32 = sqrtRatioNextX32 ∧ amountRemaining ≥ 0 then partialGet amountInOpt
    else SqrtPriceMath.getAmount0Delta sqrtRatioNextX32 sqrtRatioCurrentX32 liquidity true
  else
    if sqrtRatioTargetX32 = sqrtRatioNextX32 ∧ amountRemaining ≥ 0 then partialGet amountInOpt
    else SqrtPriceMath.getAmount1Delta sqrtRatioCurrentX32 sqrtRatioNextX32 liquidity true

/-- Final amountOut assignment of computeSwapStep (before the exact-output
clamp): keeps the phase-1 value when the target was exactly reached in
exact-output mode, otherwise recomputes the output (rounded down). -/
def stepAmountOut (sqrtRatioCurrentX32 sqrtRatioTargetX32 sqrtRatioNextX32 liquidity
    amountRemaining : Int) (amountOutOpt : Option Int) : Except String Int :=
  if sqrtRatioCurrentX32 ≥ sqrtRatioTargetX32 then
    if sqrtRatioTargetX32 = sqrtRatioNextX32 ∧ ¬amountRemaining ≥ 0 then partialGet amountOutOpt
    else SqrtPriceMath.getAmount1Delta sqrtRatioNextX32 sqrtRatioCurrentX32 liquidity false
  else
    if sqrtRatioTargetX32 = sqrtRatioNextX32 ∧ ¬amountRemaining ≥ 0 then partialGet amountOutOpt
    else SqrtPriceMath.getAmount0Delta sqrtRatioCurrentX32 sqrtRatioNextX32 liquidity false

/-- Fee settlement of computeSwapStep: the unspent remainder in an
exact-input step that stopped short of the target, otherwise
`ceil(amountIn * feePips / (MAX_FEE - feePips))`. -/
def stepFeeAmount (sqrtRatioTargetX32 sqrtRatioNextX32 amountRemaining amountIn feePips : Int) :
    Except String Int :=
  if amountRemaining ≥ 0 ∧ sqrtRatioNextX32 ≠ sqrtRatioTargetX32 then
    pure (amountRemaining - amountIn)
  else
    FullMath.mulDivRoundingUp amountIn feePips (MAX_FEE - feePips)

/-- SwapMath.computeSwapStep from src/utils/swapMath.ts: phase 1 above, then
the shared tail that recomputes the final amounts for the actual price
movement, clamps exact-output, and settles the fee. -/
def computeSwapStep (sqrtRatioCurrentX32 sqrtRatioTargetX32 liquidity amountRemaining
    feePips : Int) : Except String SwapStepResult := do
  let (sqrtRatioNextX32, amountInOpt, amountOutOpt) ←
    computeSwapStepPhase1 sqrtRatioCurrentX32 sqrtRatioTargetX32 liquidity amountRemaining feePips
  let amountIn ← stepAmountIn sqrtRatioCurrentX32 sqrtRatioTargetX32 sqrtRatioNextX32 liquidity
    amountRemaining amountInOpt
  let amountOut ← stepAmountOut sqrtRatioCurrentX32 sqrtRatioTargetX32 sqrtRatioNextX32 liquidity
    amountRemaining amountOutOpt
  let amountOut :=
    if ¬amountRemaining ≥ 0 ∧ amountOut > amountRemaining * NEGATIVE_ONE then
      amountRemaining * NEGATIVE_ONE
    else amountOut
  let feeAmount ← stepFeeAmount sqrtRatioTargetX32 sqrtRatioNextX32 amountRemaining amountIn
    feePips
  pure ⟨sqrtRatioNextX32, amountIn, amountOut, feeAmount⟩

end SwapMath

set_option maxRecDepth 8000 in
/-- C1.  The claimed round trip `getTickAtSqrtRatio (getSqrtRatioAtTick t) = t`
for every tick in `[-221818, 221818]` fails in this source: `mulShift`
right-shifts by 128 bits although its constants are only 64 bits wide, so the
ratio collapses to zero for every `|tick| ≥ 2`.  At `t = 2` the inversion
`MaxUint128 / 0` throws a division-by-zero error, and at `t = -2` the ratio 0
is below MIN_SQRT_RATIO so the recovery invariant throws. -/
theorem roundTrip_fails_in_range :
    TickMath.roundTrip 2 = .error errDivisionByZero ∧
      TickMath.roundTrip (-2) = .error errSqrtRatioRange := by
  constructor
  · rfl
  · rfl

set_option maxRecDepth 8000 in
/-- C2.  Strict monotonicity of getSqrtRatioAtTick fails: the 128-bit shift in
`mulShift` zeroes the ratio for every `|tick| ≥ 2`, so the ticks `-3 < -2`
both map to the sqrt ratio 0, which is not a strict increase. -/
theorem getSqrtRatioAtTick_not_strictMono :
    TickMath.getSqrtRatioAtTick (-3) = .ok 0 ∧
      TickMath.getSqrtRatioAtTick (-2) = .ok 0 ∧ ¬(0 : Int) < 0 := by
  refine ⟨rfl, rfl, by omega⟩

set_option maxRecDepth 8000 in
/-- C3.  getSqrtRatioAtTick does fail with the TICK domain error outside
`[-221818, 221818]` (shown at 250000 and -250000), but it does not return
successfully on every in-range tick: at the in-range tick 2 it throws a
division-by-zero error because the 128-bit shift zeroes the ratio before the
MaxUint128 inversion. -/
theorem getSqrtRatioAtTick_error_behaviour :
    TickMath.getSqrtRatioAtTick 250000 = .error errTick ∧
      TickMath.getSqrtRatioAtTick (-250000) = .error errTick ∧
      TickMath.getSqrtRatioAtTick 2 = .error errDivisionByZero := by
  refine ⟨rfl, rfl, rfl⟩

/-- C10.  LiquidityMath.addDelta is total and performs no underflow or
overflow check: both of its branches compute exactly `liquidity + delta`
(the `delta < 0` branch computes `x - (-delta)`, the same value), and when
`|delta| > liquidity` with `delta < 0` the result is negative even though
liquidity is nominally unsigned. -/
theorem addDelta_total_no_guard (x y : Int) :
    LiquidityMath.addDelta x y = x + y ∧ (y < 0 → x < -y → LiquidityMath.addDelta x y < 0) := by
  unfold LiquidityMath.addDelta NEGATIVE_ONE
  constructor
  · split <;> ring
  · intro _ h2
    split <;> omega

/-- Witness for C10 at liquidity 5, delta -7: the result is the negative
value -2. -/
theorem addDelta_total_no_guard_witness :
    LiquidityMath.addDelta 5 (-7) = -2 ∧ LiquidityMath.addDelta 5 (-7) < 0 := by
  have h := addDelta_total_no_guard 5 (-7)
  exact ⟨by rw [h.1]; norm_num, h.2 (by omega) (by omega)⟩

/-- Helper: a successful Except bind factors through a successful first
component. -/
theorem except_bind_ok {α β : Type} {x : Except String α} {f : α → Except String β} {b : β}
    (h : (x >>= f) = .ok b) : ∃ a, x = .ok a ∧ f a = .ok b := by
  cases x with
  | ok a => exact ⟨a, rfl, h⟩
  | error e => exact absurd h (by simp [Bind.bind, Except.bind])

/-- C8.  getNextSqrtPriceFromInput and getNextSqrtPriceFromOutput both fail
whenever `sqrtPrice ≤ 0` or `liquidity ≤ 0` (their entry invariants), and
getNextSqrtPriceFromOutput additionally fails in the token0-in direction when
the required subtraction would underflow, i.e. when the price decrement
`quotient = mulDivRoundingUp(amount, Q32, liquidity)` reaches the current
sqrt price — the requested output exceeding what the liquidity can absorb. -/
theorem getNextSqrtPrice_precondition_failures (s L a : Int) (zeroForOne : Bool) :
    (s ≤ 0 ∨ L ≤ 0 →
      SqrtPriceMath.getNextSqrtPriceFromInput s L a zeroForOne = .error errInvariant ∧
        SqrtPriceMath.getNextSqrtPriceFromOutput s L a zeroForOne = .error errInvariant) ∧
      (∀ q : Int, 0 < s → 0 < L → FullMath.mulDivRoundingUp a Q32 L = .ok q → s ≤ q →
        SqrtPriceMath.getNextSqrtPriceFromOutput s L a true = .error errInvariant) := by
  constructor
  · intro h
    unfold SqrtPriceMath.getNextSqrtPriceFromInput SqrtPriceMath.getNextSqrtPriceFromOutput
    by_cases hs : s > 0
    · have hL : ¬L > 0 := by omega
      rw [if_pos hs, if_pos hs, if_neg hL, if_neg hL]
      exact ⟨rfl, rfl⟩
    · rw [if_neg hs, if_neg hs]
      exact ⟨rfl, rfl⟩
  · intro q hs hL hq hle
    unfold SqrtPriceMath.getNextSqrtPriceFromOutput
    rw [if_pos hs, if_pos hL, if_pos rfl]
    unfold SqrtPriceMath.getNextSqrtPriceFromAmount1RoundingDown
    simp only [Bool.false_eq_true, if_false, hq]
    show Except.ok q >>= _ = _
    show (if s > q then pure (s - q) else Except.error errInvariant) = _
    rw [if_neg (by omega)]

/-- Witness for C8: at `sqrtPrice = 0` both functions fail, and at
`(s, L, a) = (100, 5, 1)` the output decrement `ceil(2^32 / 5) = 858993460`
reaches the price, so getNextSqrtPriceFromOutput fails. -/
theorem getNextSqrtPrice_precondition_failures_witness :
    (SqrtPriceMath.getNextSqrtPriceFromInput 0 1 1 true = .error errInvariant ∧
      SqrtPriceMath.getNextSqrtPriceFromOutput 0 1 1 true = .error errInvariant) ∧
      SqrtPriceMath.getNextSqrtPriceFromOutput 100 5 1 true = .error errInvariant := by
  refine ⟨(getNextSqrtPrice_precondition_failures 0 1 1 true).1 (Or.inl (by omega)), ?_⟩
  exact (getNextSqrtPrice_precondition_failures 100 5 1 true).2 858993460
    (by omega) (by omega) rfl (by omega)

/-- ceilDiv of a zero numerator is zero. -/
theorem ceilDiv_zero_num (d : Int) : ceilDiv 0 d = 0 := by
  simp [ceilDiv]

/-- Characterization of ceilDiv from above, for a positive divisor. -/
theorem ceilDiv_le_iff {p d q : Int} (hd : 0 < d) : ceilDiv p d ≤ q ↔ p ≤ d * q := by
  unfold ceilDiv
  rw [Int.fdiv_eq_ediv _ hd.le, neg_le, Int.le_ediv_iff_mul_le hd]
  constructor <;> intro h <;> nlinarith

/-- Characterization of ceilDiv from below, for a positive divisor. -/
theorem lt_ceilDiv_iff {p d q : Int} (hd : 0 < d) : q < ceilDiv p d ↔ d * q < p := by
  rw [lt_iff_not_le, ceilDiv_le_iff hd, not_le]

/-- Truncated division of nonnegative operands is a floor: lower bound. -/
theorem tdiv_mul_le {a b : Int} (ha : 0 ≤ a) (hb : 0 < b) : b * Int.tdiv a b ≤ a := by
  rw [Int.tdiv_eq_ediv ha hb.le]
  calc b * (a / b) = a / b * b := mul_comm _ _
  _ ≤ a := Int.ediv_mul_le a hb.ne'

/-- Truncated division of nonnegative operands is a floor: upper bound. -/
theorem lt_tdiv_add_one_mul {a b : Int} (ha : 0 ≤ a) (hb : 0 < b) :
    a < b * (Int.tdiv a b + 1) := by
  rw [Int.tdiv_eq_ediv ha hb.le]
  calc a < (a / b + 1) * b := Int.lt_ediv_add_one_mul_self a hb
  _ = b * (a / b + 1) := mul_comm _ _

/-- Truncated division of nonnegative operands is nonnegative. -/
theorem tdiv_nonneg' {a b : Int} (ha : 0 ≤ a) (hb : 0 ≤ b) : 0 ≤ Int.tdiv a b :=
  Int.tdiv_nonneg ha hb

set_option maxRecDepth 8000 in
/-- C4 counterexample.  computeSwapStep with `feePips = 0` can return a
nonzero fee: with current price `2^32`, target `2^32 + 1`, liquidity `2^33`
and an exact input of 1, the step stops short of the target (the one unit of
input is too small to move the price), and the entire unspent remainder
becomes fee: `feeAmount = 1 ≠ 0`. -/
theorem computeSwapStep_feePips_zero_cex :
    SwapMath.computeSwapStep 4294967296 4294967297 8589934592 1 0 =
      .ok ⟨4294967296, 0, 0, 1⟩ ∧ ((1 : Int) ≠ 0) := ⟨rfl, by omega⟩

/-- C4 (amended).  computeSwapStep with `feePips = 0` yields `feeAmount = 0`
in exact-output mode (both directions) and in exact-input mode whenever the
returned price reaches the target; in an exact-input step that stops short
of the target, `feeAmount = amountRemaining - amountIn` instead, which can be
nonzero (see the counterexample). -/
theorem computeSwapStep_feePips_zero (cur tgt L rem : Int) (r : SwapStepResult)
    (h : SwapMath.computeSwapStep cur tgt L rem 0 = .ok r) :
    ((rem < 0 ∨ r.sqrtRatioNextX32 = tgt) → r.feeAmount = 0) ∧
      (0 ≤ rem → r.sqrtRatioNextX32 ≠ tgt → r.feeAmount = rem - r.amountIn) := by
  unfold SwapMath.computeSwapStep at h
  obtain ⟨⟨next, io, oo⟩, hp, h⟩ := except_bind_ok h
  dsimp only at h
  obtain ⟨aIn, hIn, h⟩ := except_bind_ok h
  obtain ⟨aOut, hOut, h⟩ := except_bind_ok h
  obtain ⟨fee, hF, h⟩ := except_bind_ok h
  rw [show ∀ x : SwapStepResult, (pure x : Except String SwapStepResult) = .ok x
    from fun _ => rfl] at h
  injection h with h
  subst h
  unfold SwapMath.stepFeeAmount at hF
  constructor
  · intro hc
    have hcond : ¬(rem ≥ 0 ∧ next ≠ tgt) := by
      rintro ⟨h1, h2⟩
      rcases hc with hc | hc
      · omega
      · exact h2 hc
    rw [if_neg hcond] at hF
    unfold FullMath.mulDivRoundingUp at hF
    rw [if_neg (by norm_num [SwapMath.MAX_FEE])] at hF
    simp only [mul_zero, ceilDiv_zero_num, Except.ok.injEq] at hF
    exact hF.symm
  · intro h1 h2
    rw [if_pos ⟨by omega, h2⟩] at hF
    injection hF with hF
    exact hF.symm

/-- Witness for the amended C4 theorem at the exact-output input
`(100000, 90000, 123456789, -1000, 0)`: the fee is 0. -/
theorem computeSwapStep_feePips_zero_witness :
    ∃ r : SwapStepResult,
      SwapMath.computeSwapStep 100000 90000 123456789 (-1000) 0 = .ok r ∧ r.feeAmount = 0 := by
  refine ⟨⟨90000, 589158745805, 287, 0⟩, rfl, ?_⟩
  exact (computeSwapStep_feePips_zero 100000 90000 123456789 (-1000)
    ⟨90000, 589158745805, 287, 0⟩ (by rfl)).1 (Or.inl (by omega))

/-- Single-bit mask behaviour. -/
theorem jsbiAnd_q64 (x : Int) (hx : 0 ≤ x) : jsbiAnd x Q64 = 0 ∨ jsbiAnd x Q64 = Q64 := by
  obtain ⟨a, rfl⟩ := Int.eq_ofNat_of_zero_le hx
  have hq : (Q64 : Int) = Int.ofNat (2 ^ 64) := by decide
  rw [hq]
  show (Int.ofNat (a &&& 2 ^ 64) = 0) ∨ (Int.ofNat (a &&& 2 ^ 64) = Int.ofNat (2 ^ 64))
  rw [Nat.and_two_pow]
  cases a.testBit 64 <;> simp

/-- In the exact-input token0 direction, a partial step (input smaller than
the ceiling amount needed to reach the target) produces a price strictly
above the target. -/
theorem amount0up_add_gt_target {cur tgt L amt nx : Int}
    (hcur : 0 < cur) (hL : 0 < L) (hamt : 0 ≤ amt) (htgt : tgt ≠ 0)
    (hlt : amt < ceilDiv (ceilDiv (jsbiShl L 32 * (cur - tgt)) cur) tgt)
    (h : SqrtPriceMath.getNextSqrtPriceFromAmount0RoundingUp cur L amt true = .ok nx) :
    tgt < nx := by
  have hn1 : (0 : Int) < jsbiShl L 32 := by
    unfold jsbiShl; positivity
  set n1 := jsbiShl L 32 with hn1def
  set inner := ceilDiv (n1 * (cur - tgt)) cur with hinner
  unfold SqrtPriceMath.getNextSqrtPriceFromAmount0RoundingUp at h
  by_cases hz : amt = 0
  · -- early return: nx = cur; need tgt < cur
    rw [if_pos hz] at h
    injection h with h
    subst h
    rcases lt_or_gt_of_ne htgt with htneg | htpos
    · -- tgt < 0 < cur
      omega
    · -- tgt > 0: positivity of the ceiling value forces cur - tgt > 0
      subst hz
      have h0 : (0:Int) < ceilDiv inner tgt := lt_of_le_of_lt hamt hlt
      have h1 : 0 < inner := by
        have := (lt_ceilDiv_iff htpos).mp h0
        nlinarith
      have h2 : 0 < n1 * (cur - tgt) := by
        have := (lt_ceilDiv_iff hcur).mp h1
        nlinarith
      nlinarith
  · rw [if_neg hz] at h
    have hampos : 0 < amt := lt_of_le_of_ne hamt (Ne.symm hz)
    rw [if_pos rfl] at h
    dsimp only at h
    obtain ⟨check, hChk, h⟩ := except_bind_ok h
    unfold jsbiDiv at hChk
    rw [if_neg hz] at hChk
    injection hChk with hChk
    split at h
    next hcase =>
      -- masked path
      obtain ⟨hcheq, hdenge⟩ := hcase
      have hprodnn : 0 ≤ amt * cur := by positivity
      rcases jsbiAnd_q64 (amt * cur) hprodnn with hp0 | hpQ
      · -- product 0: check = 0 = cur contradicts 0 < cur
        unfold SqrtPriceMath.multiplyIn128 at hChk
        rw [hp0] at hChk
        rw [← hChk] at hcheq
        simp [Int.zero_tdiv] at hcheq
        omega
      · unfold SqrtPriceMath.multiplyIn128 at hdenge h hChk
        rw [hpQ] at hChk hdenge h
        -- denominator analysis
        have hq64pos : (0:Int) < Q64 := by norm_num [Q64, Q32]
        have hdnn : 0 ≤ n1 + Q64 := by positivity
        have hden := jsbiAnd_q64 (n1 + Q64) hdnn
        unfold SqrtPriceMath.addIn128 at hdenge h
        rcases hden with hd0 | hdQ
        · rw [hd0] at hdenge; omega
        · rw [hdQ] at hdenge h
          unfold FullMath.mulDivRoundingUp at h
          rw [if_neg hq64pos.ne'] at h
          injection h with h
          -- bounds from check = tdiv Q64 amt = cur
          rw [← hChk] at hcheq
          have hb1 : amt * cur ≤ Q64 := by
            have := tdiv_mul_le (le_of_lt hq64pos) hampos
            rw [hcheq] at this
            nlinarith
          have hb2 : Q64 < amt * (cur + 1) := by
            have := lt_tdiv_add_one_mul (le_of_lt hq64pos) hampos
            rw [hcheq] at this
            nlinarith
          subst h
          rw [lt_ceilDiv_iff hq64pos]
          rcases lt_or_gt_of_ne htgt with htneg | htpos
          · nlinarith
          · -- main chain
            have f1 : tgt * amt < inner := (lt_ceilDiv_iff htpos).mp hlt
            have f2 : cur * (inner - 1) < n1 * (cur - tgt) := by
              by_contra hcon
              push_neg at hcon
              have := (ceilDiv_le_iff hcur).mpr hcon
              rw [← hinner] at this
              omega
            have d1 : cur * (tgt * amt) < n1 * cur - n1 * tgt := by nlinarith
            have d2 : tgt * amt < n1 := by nlinarith
            have d3 : amt ≤ tgt * amt := le_mul_of_one_le_left hamt (by omega)
            nlinarith
    next hcase =>
      -- fallback path
      obtain ⟨q, hQ, h⟩ := except_bind_ok h
      unfold jsbiDiv at hQ
      rw [if_neg hcur.ne'] at hQ
      injection hQ with hQ
      unfold FullMath.mulDivRoundingUp at h
      by_cases hdz : q + amt = 0
      · rw [if_pos hdz] at h; exact absurd h (by simp)
      · rw [if_neg hdz] at h
        injection h with h
        have hqnn : 0 ≤ q := by rw [← hQ]; exact tdiv_nonneg' hn1.le hcur.le
        have hdpos : 0 < q + amt := by omega
        subst h
        rw [mul_one, lt_ceilDiv_iff hdpos]
        have hf : cur * q ≤ n1 := by
          have := tdiv_mul_le hn1.le hcur
          rw [hQ] at this
          exact this
        rcases lt_or_gt_of_ne htgt with htneg | htpos
        · nlinarith
        · have f1 : tgt * amt < inner := (lt_ceilDiv_iff htpos).mp hlt
          have f2 : cur * (inner - 1) < n1 * (cur - tgt) := by
            by_contra hcon
            push_neg at hcon
            have := (ceilDiv_le_iff hcur).mpr hcon
            rw [← hinner] at this
            omega
          have d1 : cur * (tgt * amt) < n1 * cur - n1 * tgt := by nlinarith
          nlinarith

/-- In the exact-input token1 direction, a partial step produces a price
strictly below the target. -/
theorem amount1down_add_lt_target {cur tgt L amt nx : Int}
    (hL : 0 < L) (hamt : 0 ≤ amt)
    (hlt : amt < ceilDiv (L * (tgt - cur)) Q32)
    (h : SqrtPriceMath.getNextSqrtPriceFromAmount1RoundingDown cur L amt true = .ok nx) :
    nx < tgt := by
  have hq32 : (0:Int) < Q32 := by norm_num [Q32]
  unfold SqrtPriceMath.getNextSqrtPriceFromAmount1RoundingDown at h
  rw [if_pos rfl] at h
  have key : ∀ q : Int, Int.tdiv (amt * 2 ^ 32) L = q → nx = cur + q → nx < tgt := by
    intro q hq hnx
    have h1 : L * q ≤ amt * 2 ^ 32 := by
      have := tdiv_mul_le (by positivity : (0:Int) ≤ amt * 2 ^ 32) hL
      rw [hq] at this
      exact this
    have h2 : Q32 * amt < L * (tgt - cur) := (lt_ceilDiv_iff hq32).mp hlt
    have h3 : Q32 * amt = amt * 2 ^ 32 := by rw [Q32]; ring
    have : L * q < L * (tgt - cur) := by omega
    have := lt_of_mul_lt_mul_left this hL.le
    omega
  split at h
  · obtain ⟨q, hQ, h⟩ := except_bind_ok h
    unfold jsbiDiv at hQ
    rw [if_neg hL.ne'] at hQ
    injection hQ with hQ
    injection h with h
    exact key q (by rw [← hQ]; rfl) (h.symm)
  · obtain ⟨q, hQ, h⟩ := except_bind_ok h
    unfold jsbiDiv at hQ
    rw [if_neg hL.ne'] at hQ
    injection hQ with hQ
    injection h with h
    exact key q (by rw [← hQ]; rfl) (h.symm)

/-- Characterization of getAmount0Delta with roundUp for ordered inputs. -/
theorem getAmount0Delta_roundUp_char {lo hi L a0 : Int} (hle : ¬lo > hi) (hhi : hi ≠ 0)
    (h : SqrtPriceMath.getAmount0Delta lo hi L true = .ok a0) :
    lo ≠ 0 ∧ a0 = ceilDiv (ceilDiv (jsbiShl L 32 * (hi - lo)) hi) lo := by
  unfold SqrtPriceMath.getAmount0Delta at h
  rw [if_neg hle] at h
  dsimp only at h
  rw [if_pos rfl] at h
  obtain ⟨inner, hInner, hOuter⟩ := except_bind_ok h
  unfold FullMath.mulDivRoundingUp at hInner hOuter
  rw [if_neg hhi] at hInner
  injection hInner with hInner
  by_cases hlo : lo = 0
  · rw [if_pos hlo] at hOuter
    exact absurd hOuter (by simp)
  · rw [if_neg hlo] at hOuter
    injection hOuter with hOuter
    exact ⟨hlo, by rw [← hOuter, ← hInner, mul_one]⟩

/-- Characterization of getAmount1Delta with roundUp for ordered inputs. -/
theorem getAmount1Delta_roundUp_char {lo hi L a1 : Int} (hle : ¬lo > hi)
    (h : SqrtPriceMath.getAmount1Delta lo hi L true = .ok a1) :
    a1 = ceilDiv (L * (hi - lo)) Q32 := by
  unfold SqrtPriceMath.getAmount1Delta at h
  rw [if_neg hle] at h
  dsimp only at h
  rw [if_pos rfl] at h
  unfold FullMath.mulDivRoundingUp at h
  rw [if_neg (by norm_num [Q32])] at h
  injection h with h
  exact h.symm

/-- Phase-1 specification for exact-input steps: the tentative amountIn is
recorded, and whenever phase 1 already reaches the target price, that
amountIn is within the fee-reduced remaining budget. -/
theorem phase1_exactIn_spec {cur tgt L rem f next : Int} {io oo : Option Int}
    (hcur : 0 < cur) (hrem : 0 ≤ rem) (hf : f < 1000000)
    (hp : SwapMath.computeSwapStepPhase1 cur tgt L rem f = .ok (next, io, oo)) :
    ∃ a0, io = some a0 ∧ (next = tgt → a0 * 1000000 ≤ rem * (1000000 - f)) := by
  have hmaxfee : (SwapMath.MAX_FEE : Int) = 1000000 := by norm_num [SwapMath.MAX_FEE]
  unfold SwapMath.computeSwapStepPhase1 at hp
  rw [if_pos (by omega : rem ≥ 0)] at hp
  obtain ⟨aRLF, hA, hp⟩ := except_bind_ok hp
  unfold jsbiDiv at hA
  rw [if_neg (by rw [hmaxfee]; omega)] at hA
  injection hA with hA
  have hgpos : (0:Int) < SwapMath.MAX_FEE - f := by omega
  have hXnn : (0:Int) ≤ rem * (SwapMath.MAX_FEE - f) := mul_nonneg hrem hgpos.le
  have haRLFnn : 0 ≤ aRLF := by
    rw [← hA]; exact tdiv_nonneg' hXnn (by rw [hmaxfee]; omega)
  have haRLFb : aRLF * 1000000 ≤ rem * (1000000 - f) := by
    have := tdiv_mul_le hXnn (b := SwapMath.MAX_FEE) (by rw [hmaxfee]; omega)
    rw [hA, hmaxfee] at this
    nlinarith [this]
  by_cases hdir : cur ≥ tgt
  · rw [if_pos hdir] at hp
    dsimp only at hp
    obtain ⟨a0, hIn, hp⟩ := except_bind_ok hp
    split at hp
    · injection hp with hp
      obtain ⟨hnext, hio, hoo⟩ : tgt = next ∧ some a0 = io ∧ none = oo := by
        simpa [Prod.ext_iff] using hp
      refine ⟨a0, hio.symm, fun _ => ?_⟩
      have : a0 ≤ aRLF := by omega
      nlinarith
    · next hBcond =>
      push_neg at hBcond
      obtain ⟨nx, hN, hp⟩ := except_bind_ok hp
      injection hp with hp
      obtain ⟨hnext, hio, hoo⟩ : nx = next ∧ some a0 = io ∧ none = oo := by
        simpa [Prod.ext_iff] using hp
      subst hnext
      refine ⟨a0, hio.symm, fun heq => ?_⟩
      exfalso
      unfold SqrtPriceMath.getNextSqrtPriceFromInput at hN
      rw [if_pos hcur] at hN
      by_cases hLpos : L > 0
      · rw [if_pos hLpos, if_pos (by simpa using hdir)] at hN
        obtain ⟨htgtne, ha0⟩ := getAmount0Delta_roundUp_char (by omega) hcur.ne' hIn
        have := amount0up_add_gt_target hcur hLpos haRLFnn htgtne
          (by rw [← ha0]; exact hBcond) hN
        omega
      · rw [if_neg hLpos] at hN
        exact absurd hN (by simp)
  · rw [if_neg hdir] at hp
    dsimp only at hp
    obtain ⟨a0, hIn, hp⟩ := except_bind_ok hp
    split at hp
    · injection hp with hp
      obtain ⟨hnext, hio, hoo⟩ : tgt = next ∧ some a0 = io ∧ none = oo := by
        simpa [Prod.ext_iff] using hp
      refine ⟨a0, hio.symm, fun _ => ?_⟩
      have : a0 ≤ aRLF := by omega
      nlinarith
    · next hBcond =>
      push_neg at hBcond
      obtain ⟨nx, hN, hp⟩ := except_bind_ok hp
      injection hp with hp
      obtain ⟨hnext, hio, hoo⟩ : nx = next ∧ some a0 = io ∧ none = oo := by
        simpa [Prod.ext_iff] using hp
      subst hnext
      refine ⟨a0, hio.symm, fun heq => ?_⟩
      exfalso
      unfold SqrtPriceMath.getNextSqrtPriceFromInput at hN
      rw [if_pos hcur] at hN
      by_cases hLpos : L > 0
      · rw [if_pos hLpos, if_neg (by simpa using hdir)] at hN
        have ha0 := getAmount1Delta_roundUp_char (by omega) hIn
        have := amount1down_add_lt_target hLpos haRLFnn
          (by rw [← ha0]; exact hBcond) hN
        omega
      · rw [if_neg hLpos] at hN
        exact absurd hN (by simp)

/-- C9 main: exact-input computeSwapStep never consumes more than the
remaining amount. -/
theorem computeSwapStep_exactIn_bounded (cur tgt L rem f : Int) (r : SwapStepResult)
    (hcur : 0 < cur) (hrem : 0 ≤ rem) (hf : f < 1000000)
    (h : SwapMath.computeSwapStep cur tgt L rem f = .ok r) :
    r.amountIn + r.feeAmount ≤ rem := by
  unfold SwapMath.computeSwapStep at h
  obtain ⟨⟨next, io, oo⟩, hp, h⟩ := except_bind_ok h
  dsimp only at h
  obtain ⟨aIn, hIn, h⟩ := except_bind_ok h
  obtain ⟨aOut, hOut, h⟩ := except_bind_ok h
  obtain ⟨fee, hF, h⟩ := except_bind_ok h
  rw [show ∀ x : SwapStepResult, (pure x : Except String SwapStepResult) = .ok x
    from fun _ => rfl] at h
  injection h with h
  subst h
  obtain ⟨a0, hio, hbound⟩ := phase1_exactIn_spec hcur hrem hf hp
  subst hio
  unfold SwapMath.stepFeeAmount at hF
  by_cases hreach : next = tgt
  · have hb := hbound hreach
    have hcond : tgt = next ∧ rem ≥ 0 := ⟨hreach.symm, by omega⟩
    have haIn : aIn = a0 := by
      unfold SwapMath.stepAmountIn at hIn
      by_cases hdir : cur ≥ tgt
      · rw [if_pos hdir, if_pos hcond] at hIn
        injection hIn with hIn
        exact hIn.symm
      · rw [if_neg hdir, if_pos hcond] at hIn
        injection hIn with hIn
        exact hIn.symm
    have hgpos : (0:Int) < SwapMath.MAX_FEE - f := by norm_num [SwapMath.MAX_FEE]; omega
    rw [if_neg (by rintro ⟨h1, h2⟩; exact h2 hreach)] at hF
    unfold FullMath.mulDivRoundingUp at hF
    rw [if_neg hgpos.ne'] at hF
    injection hF with hF
    show aIn + fee ≤ rem
    rw [← hF, haIn]
    have hmaxfee : (SwapMath.MAX_FEE : Int) = 1000000 := by norm_num [SwapMath.MAX_FEE]
    have hceil : ceilDiv (a0 * f) (SwapMath.MAX_FEE - f) ≤ rem - a0 := by
      rw [ceilDiv_le_iff hgpos, hmaxfee]
      nlinarith [hb]
    omega
  · rw [if_pos ⟨by omega, hreach⟩] at hF
    injection hF with hF
    show aIn + fee ≤ rem
    omega

/-- Witness for C9 at the exact-input step
`(90000, 100000, 123456789, 1000000000, 500)`: the step consumes
`amountIn + feeAmount = 288 + 1 = 289 ≤ 1000000000`. -/
theorem computeSwapStep_exactIn_bounded_witness :
    SwapMath.computeSwapStep 90000 100000 123456789 1000000000 500 =
      .ok ⟨100000, 288, 589158745804, 1⟩ ∧ ((288 : Int) + 1 ≤ 1000000000) := by
  refine ⟨by rfl, ?_⟩
  exact computeSwapStep_exactIn_bounded 90000 100000 123456789 1000000000 500
    ⟨100000, 288, 589158745804, 1⟩ (by omega) (by omega) (by omega) (by rfl)

/-- tickPosition from src/entities/tick.ts: `wordPos = tickBySpacing >> 8`
(arithmetic shift) and `bitPos = tickBySpacing % 256 & 255` (truncated
remainder, then a two's-complement AND with 255). -/
def tickPosition (tickBySpacing : Int) : Int × Int :=
  (jsbiShr tickBySpacing 8, jsbiAnd (Int.tmod tickBySpacing 256) 255)

/-- Modelled from the spec: src/entities/bitmap.ts (nextInitializedBit,
generateBitmapWord) is missing from the sources.  Downward scan helper for
the nearest set bit at or below `b`. -/
def scanDown (w : Nat) : Nat → Option Nat
  | 0 => if w.testBit 0 then some 0 else none
  | b + 1 => if w.testBit (b + 1) then some (b + 1) else scanDown w b

/-- Modelled from the spec: upward scan with fuel, for the nearest set bit at
or above `b` (fuel counts the remaining positions up to 255). -/
def scanUp (w : Nat) : Nat → Nat → Option Nat
  | 0, _ => none
  | c + 1, b => if w.testBit b then some b else scanUp w c (b + 1)

/-- Modelled from the spec (section 4.4) and the bitmap unit test: scans the
256-bit word from `bitPos` toward bit 0 (lte) or bit 255 (not lte); when no
set bit is found returns initialized = false with the word boundary bit 0
resp. 255. -/
def nextInitializedBit (word : Int) (bitPos : Int) (lte : Bool) : Int × Bool :=
  if lte then
    match scanDown word.toNat bitPos.toNat with
    | some b => (Int.ofNat b, true)
    | none => (0, false)
  else
    match scanUp word.toNat (256 - bitPos.toNat) bitPos.toNat with
    | some b => (Int.ofNat b, true)
    | none => (255, false)

namespace SolanaTickDataProvider

/-- nextInitializedTickWithinOneWord of the caching SolanaTickDataProvider
variant.  The on-chain bitmap account fetch plus generateBitmapWord is
modelled by the `fetchWord` parameter; `none` means the account does not
exist, in which case the catch branch substitutes the zero word.  The
per-call cache and the account address are omitted (they do not affect the
returned tuple). -/
def nextInitializedTickWithinOneWord (fetchWord : Int → Option Int) (tick : Int) (lte : Bool)
    (tickSpacing : Int) : Except String (Int × Bool × Int × Int) := do
  let c0 ← jsbiDiv tick tickSpacing
  let compressed := if tick < 0 ∧ Int.tmod tick tickSpacing ≠ 0 then c0 - 1 else c0
  let compressed := if !lte then compressed + 1 else compressed
  let (wordPos, bitPos) := tickPosition compressed
  let word := (fetchWord wordPos).getD 0
  let (nextBit, initialized) := nextInitializedBit word bitPos lte
  pure ((wordPos * 256 + nextBit) * tickSpacing, initialized, wordPos, bitPos)

end SolanaTickDataProvider

/-- Truncated remainder negates with its dividend. -/
theorem tmod_neg_left (a b : Int) : (-a).tmod b = -(a.tmod b) := by
  have h1 := Int.tdiv_add_tmod a b
  have h2 := Int.tdiv_add_tmod (-a) b
  rw [Int.neg_tdiv] at h2
  have h3 : b * -a.tdiv b = -(b * a.tdiv b) := by ring
  omega

/-- Lower bound of the truncated remainder for a positive divisor. -/
theorem neg_lt_tmod (t : Int) {s : Int} (hs : 0 < s) : -s < t.tmod s := by
  rcases le_or_lt 0 t with ht | ht
  · have := Int.tmod_nonneg s ht
    omega
  · have heq : t.tmod s = -((-t).tmod s) := by rw [← tmod_neg_left, neg_neg]
    have := Int.tmod_lt_of_pos (-t) hs
    omega

/-- Upper bound of the truncated remainder: nonpositive for a negative
dividend and positive divisor. -/
theorem tmod_nonpos_of_neg {t s : Int} (ht : t < 0) (hs : 0 < s) : t.tmod s ≤ 0 := by
  have heq : t.tmod s = -((-t).tmod s) := by rw [← tmod_neg_left, neg_neg]
  have := Int.tmod_nonneg s (by omega : (0:Int) ≤ -t)
  omega

/-- The truncated quotient with the floor adjustment for negative dividends
equals floor division. -/
theorem tdiv_adjust_eq_fdiv (t s : Int) (hs : 0 < s) :
    (if t < 0 ∧ Int.tmod t s ≠ 0 then Int.tdiv t s - 1 else Int.tdiv t s) = Int.fdiv t s := by
  rw [Int.fdiv_eq_ediv _ hs.le]
  rcases le_or_lt 0 t with ht | ht
  · rw [if_neg (by omega), Int.tdiv_eq_ediv ht hs.le]
  · have h1 := Int.tdiv_add_tmod t s
    have h2 := Int.ediv_add_emod t s
    have hrle : t.tmod s ≤ 0 := tmod_nonpos_of_neg ht hs
    have hrgt : -s < t.tmod s := neg_lt_tmod t hs
    have hm0 : 0 ≤ t % s := Int.emod_nonneg t hs.ne'
    have hm1 : t % s < s := Int.emod_lt_of_pos t hs
    have hexp : s * (t.tdiv s - t / s) = s * t.tdiv s - s * (t / s) := by ring
    by_cases hr : Int.tmod t s = 0
    · rw [if_neg (by tauto)]
      have h3 : s * (t.tdiv s - t / s) = t % s := by omega
      have h4 : t.tdiv s - t / s = 0 := by
        rcases lt_trichotomy (t.tdiv s - t / s) 0 with h | h | h
        · exfalso
          have h6 : s * (t.tdiv s - t / s) ≤ s * (-1) := mul_le_mul_of_nonneg_left (by omega) hs.le
          omega
        · exact h
        · exfalso
          have h6 : s * 1 ≤ s * (t.tdiv s - t / s) := mul_le_mul_of_nonneg_left (by omega) hs.le
          omega
      omega
    · rw [if_pos ⟨ht, hr⟩]
      have h3 : s * (t.tdiv s - t / s) = t % s - t.tmod s := by omega
      have h4 : t.tdiv s - t / s = 1 := by
        rcases lt_trichotomy (t.tdiv s - t / s) 1 with h | h | h
        · exfalso
          have h6 : s * (t.tdiv s - t / s) ≤ s * 0 := mul_le_mul_of_nonneg_left (by omega) hs.le
          rw [mul_zero] at h6
          omega
        · exact h
        · exfalso
          have h6 : s * 2 ≤ s * (t.tdiv s - t / s) := mul_le_mul_of_nonneg_left (by omega) hs.le
          omega
      omega

set_option maxRecDepth 8000 in
/-- The bitPos computation `tmod 256 &&& 255` equals the Euclidean remainder
mod 256. -/
theorem tmod_and_255_eq_emod (c : Int) : jsbiAnd (Int.tmod c 256) 255 = c % 256 := by
  have h1 := Int.tdiv_add_tmod c 256
  have hemod : c % 256 = Int.tmod c 256 % 256 := by
    conv_lhs => rw [← h1, add_comm, Int.add_mul_emod_self_left]
  rw [hemod]
  have hlt : Int.tmod c 256 < 256 := Int.tmod_lt_of_pos c (by omega)
  have hgt : (-256 : Int) < Int.tmod c 256 := neg_lt_tmod c (by omega)
  rcases hrep : Int.tmod c 256 with m | m
  · rw [hrep, Int.ofNat_eq_natCast] at hlt
    have hm : m < 256 := by omega
    have hand : m &&& 255 = m := by
      have h8 := Nat.and_pow_two_sub_one_eq_mod m 8
      norm_num at h8
      rw [h8]
      exact Nat.mod_eq_of_lt hm
    show Int.ofNat (m &&& 255) = _
    rw [hand]
    have hnn : (0:Int) ≤ Int.ofNat m := Int.ofNat_nonneg m
    rw [Int.emod_eq_of_lt hnn (by rw [Int.ofNat_eq_natCast]; exact_mod_cast hlt)]
  · rw [hrep, Int.negSucc_eq] at hgt
    have hm : m ≤ 254 := by omega
    have hand : 255 &&& m = m := by
      rw [Nat.and_comm]
      have h8 := Nat.and_pow_two_sub_one_eq_mod m 8
      norm_num at h8
      rw [h8]
      exact Nat.mod_eq_of_lt (by omega)
    show Int.ofNat (255 - (255 &&& m)) = _
    rw [hand]
    have hfinal : Int.negSucc m % 256 = 255 - (m : Int) := by
      rw [Int.negSucc_eq]
      omega
    rw [hfinal, Int.ofNat_eq_natCast]
    omega

/-- Reducing a successful bind. -/
theorem ok_bind {α β : Type} (a : α) (f : α → Except String β) :
    (Except.ok a >>= f : Except String β) = f a := rfl

/-- The zero word has no set bit below any position. -/
theorem scanDown_zero (b : Nat) : scanDown 0 b = none := by
  induction b with
  | zero => simp [scanDown]
  | succ n ih => simp [scanDown, ih]

/-- The zero word has no set bit above any position. -/
theorem scanUp_zero (c b : Nat) : scanUp 0 c b = none := by
  induction c generalizing b with
  | zero => rfl
  | succ n ih => simp [scanUp, ih]

/-- C6.  nextInitializedTickWithinOneWord computes
`compressed = fdiv tick tickSpacing` by true floor division (truncated
division plus the negative-remainder adjustment), adds 1 when `lte = false`,
derives `wordPos = compressed >> 8` (floor division by 256) and
`bitPos = compressed mod 256`, and when the queried word's bitmap record
does not exist it treats the word as zero, returning `initialized = false`
with the tick of bit 0 (lte) or bit 255 (not lte) of that word. -/
theorem nextInitializedTick_floor_and_missing_word (fetchWord : Int → Option Int)
    (tick tickSpacing : Int) (lte : Bool) (hs : 0 < tickSpacing)
    (hnone : fetchWord ((Int.fdiv tick tickSpacing + (if lte then 0 else 1)).fdiv 256) = none) :
    SolanaTickDataProvider.nextInitializedTickWithinOneWord fetchWord tick lte tickSpacing =
      .ok ((((Int.fdiv tick tickSpacing + (if lte then 0 else 1)).fdiv 256) * 256 +
          (if lte then 0 else 255)) * tickSpacing, false,
        (Int.fdiv tick tickSpacing + (if lte then 0 else 1)).fdiv 256,
        (Int.fdiv tick tickSpacing + (if lte then 0 else 1)) % 256) := by
  unfold SolanaTickDataProvider.nextInitializedTickWithinOneWord
  have hdiv : jsbiDiv tick tickSpacing = .ok (Int.tdiv tick tickSpacing) := by
    unfold jsbiDiv
    rw [if_neg hs.ne']
  rw [hdiv, ok_bind]
  dsimp only
  rw [tdiv_adjust_eq_fdiv tick tickSpacing hs]
  cases lte with
  | false =>
    simp only [Bool.not_false, Bool.not_true, Bool.false_eq_true, Bool.true_eq_false,
      eq_self_iff_true, if_true, if_false, add_zero] at hnone ⊢
    unfold tickPosition
    dsimp only
    rw [tmod_and_255_eq_emod]
    have hwp : jsbiShr (tick.fdiv tickSpacing + 1) 8 = (tick.fdiv tickSpacing + 1).fdiv 256 := by
      unfold jsbiShr
      norm_num
    rw [hwp, hnone]
    dsimp only [Option.getD]
    unfold nextInitializedBit
    rw [if_neg (by simp)]
    have hz : (0 : Int).toNat = 0 := rfl
    rw [hz, scanUp_zero]
    rfl
  | true =>
    simp only [Bool.not_false, Bool.not_true, Bool.false_eq_true, Bool.true_eq_false,
      eq_self_iff_true, if_true, if_false, add_zero] at hnone ⊢
    unfold tickPosition
    dsimp only
    rw [tmod_and_255_eq_emod]
    have hwp : jsbiShr (tick.fdiv tickSpacing) 8 = (tick.fdiv tickSpacing).fdiv 256 := by
      unfold jsbiShr
      norm_num
    rw [hwp, hnone]
    dsimp only [Option.getD]
    unfold nextInitializedBit
    rw [if_pos rfl]
    have hz : (0 : Int).toNat = 0 := rfl
    rw [hz, scanDown_zero]
    norm_num
    rfl

/-- Witness for C6: tick spacing 60, tick 100, lte, and a bitmap directory
with no records: compressed = 1, wordPos = 0, bitPos = 1, and the result is
the tick of bit 0 of word 0 with initialized = false. -/
theorem nextInitializedTick_floor_and_missing_word_witness :
    SolanaTickDataProvider.nextInitializedTickWithinOneWord (fun _ => none) 100 true 60 =
      .ok (0, false, 0, 1) := by
  rw [nextInitializedTick_floor_and_missing_word (fun _ => none) 100 60 true (by omega) rfl]
  rfl

/-- Pool value from src/entities/pool.ts, restricted to the numeric fields
the swap engine reads (the token pair and tick data provider do not enter
any arithmetic or control flow of the verified claims). -/
structure Pool where
  fee : Int
  sqrtRatioX32 : Int
  liquidity : Int
  tickCurrent : Int
deriving Repr, DecidableEq

/-- The Pool constructor from src/entities/pool.ts: checks the fee bound and
that the sqrt price lies between the sqrt ratios of the current tick and the
next tick.  `Number.isInteger(fee)` is always true in the Int model. -/
def mkPool (fee sqrtRatioX32 liquidity tickCurrent : Int) : Except String Pool :=
  if fee < 1000000 then do
    let tickCurrentSqrtRatioX32 ← TickMath.getSqrtRatioAtTick tickCurrent
    let nextTickSqrtRatioX32 ← TickMath.getSqrtRatioAtTick (tickCurrent + 1)
    if tickCurrentSqrtRatioX32 ≤ sqrtRatioX32 ∧ sqrtRatioX32 ≤ nextTickSqrtRatioX32 then
      pure ⟨fee, sqrtRatioX32, liquidity, tickCurrent⟩
    else .error errPriceBounds
  else .error errFee

/-- C7.  Every successfully constructed Pool satisfies
`getSqrtRatioAtTick(tickCurrent) ≤ sqrtRatioX32 ≤ getSqrtRatioAtTick(tickCurrent + 1)`,
and the constructor fails with the PRICE_BOUNDS error on any input violating
that bound (with a valid fee and computable tick ratios).  The pool a swap
returns is built through this same constructor, so the invariant carries
over to it. -/
theorem mkPool_price_bounds :
    (∀ fee sqrtRatioX32 liquidity tickCurrent : Int, ∀ p : Pool,
      mkPool fee sqrtRatioX32 liquidity tickCurrent = .ok p →
        ∃ a b : Int, TickMath.getSqrtRatioAtTick p.tickCurrent = .ok a ∧
          TickMath.getSqrtRatioAtTick (p.tickCurrent + 1) = .ok b ∧
          a ≤ p.sqrtRatioX32 ∧ p.sqrtRatioX32 ≤ b) ∧
      (∀ fee sqrtRatioX32 liquidity tickCurrent a b : Int, fee < 1000000 →
        TickMath.getSqrtRatioAtTick tickCurrent = .ok a →
        TickMath.getSqrtRatioAtTick (tickCurrent + 1) = .ok b →
        ¬(a ≤ sqrtRatioX32 ∧ sqrtRatioX32 ≤ b) →
        mkPool fee sqrtRatioX32 liquidity tickCurrent = .error errPriceBounds) := by
  constructor
  · intro fee sq liq tick p h
    unfold mkPool at h
    split at h
    · obtain ⟨a, ha, h⟩ := except_bind_ok h
      obtain ⟨b, hb, h⟩ := except_bind_ok h
      split at h
      · next hbound =>
        injection h with h
        subst h
        exact ⟨a, b, ha, hb, hbound.1, hbound.2⟩
      · exact absurd h (by simp)
    · exact absurd h (by simp)
  · intro fee sq liq tick a b hfee ha hb hviol
    unfold mkPool
    rw [if_pos hfee, ha, ok_bind, hb, ok_bind, if_neg hviol]

set_option maxRecDepth 8000 in
/-- Witness for C7: the pool at tick -1 with price 4294967000 inside
`[ratio(-1), ratio(0)] = [4294752564, 4294967296]` constructs successfully
with the invariant holding, while price `2^32` at tick -5 (whose interval is
`[0, 0]` under the broken tick math) is rejected with PRICE_BOUNDS. -/
theorem mkPool_price_bounds_witness :
    (∃ a b : Int, TickMath.getSqrtRatioAtTick (-1 : Int) = .ok a ∧
        TickMath.getSqrtRatioAtTick ((-1 : Int) + 1) = .ok b ∧
        a ≤ (4294967000 : Int) ∧ (4294967000 : Int) ≤ b) ∧
      mkPool 500 4294967296 0 (-5) = .error errPriceBounds := by
  constructor
  · exact mkPool_price_bounds.1 500 4294967000 0 (-1) ⟨500, 4294967000, 0, -1⟩ (by rfl)
  · exact mkPool_price_bounds.2 500 4294967296 0 (-5) 0 0 (by omega) (by rfl) (by rfl)
      (by omega)

/-- Tick data provider interface of the budgeted Pool.swap variant
(part_000): the bitmap query returns
`(tickNext, initialized, wordPos, bitPos, bitmapAddress)` and getTick
returns `(tickAddress, liquidityNet)`; addresses are opaque integers. -/
structure TickDataProvider where
  nextInitializedTickWithinOneWord : Int → Bool → Int → Int × Bool × Int × Int × Int
  getTick : Int → Except String (Int × Int)

/-- Swap scratch state of Pool.swap, including the `lastSavedWordPos`
deduplication cursor for the touched-accounts list. -/
structure SwapState where
  amountSpecifiedRemaining : Int
  amountCalculated : Int
  sqrtPriceX32 : Int
  tick : Int
  accounts : List (Int × Bool)
  liquidity : Int
  lastSavedWordPos : Option Int
deriving Repr, DecidableEq

/-- Result of Pool.swap. -/
structure SwapResult where
  amountCalculated : Int
  sqrtRatioX32 : Int
  liquidity : Int
  tickCurrent : Int
  accounts : List (Int × Bool)
deriving Repr, DecidableEq

/-- TICK_SPACINGS from src/constants.ts. -/
def TICK_SPACINGS (fee : Int) : Int :=
  if fee = 20 then 1
  else if fee = 80 then 60
  else if fee = 500 then 10
  else if fee = 3000 then 60
  else if fee = 10000 then 200
  else 0

/-- Pool.tickSpacing getter. -/
def Pool.tickSpacing (p : Pool) : Int := TICK_SPACINGS p.fee

/-- Continue condition of the swap while loop. -/
def swapLoopCond (sqrtPriceLimitX32 : Int) (s : SwapState) : Prop :=
  s.amountSpecifiedRemaining ≠ 0 ∧ s.sqrtPriceX32 ≠ sqrtPriceLimitX32 ∧
    s.tick < TickMath.MAX_TICK ∧ TickMath.MIN_TICK < s.tick

instance (sqrtPriceLimitX32 : Int) (s : SwapState) :
    Decidable (swapLoopCond sqrtPriceLimitX32 s) :=
  inferInstanceAs (Decidable (_ ≠ _ ∧ _ ≠ _ ∧ _ < _ ∧ _ < _))

/-- One iteration of the Pool.swap while loop (part_000, lines 269-347):
query the next candidate tick within one bitmap word, record the bitmap
account on first sight of its word, clamp the candidate, compute the step
to the bounding price, update the running totals, and either cross the tick
(applying its liquidity net, negated when moving left) or recompute the tick
from the moved price. -/
def swapStepBody (pool : Pool) (provider : TickDataProvider) (zeroForOne exactInput : Bool)
    (sqrtPriceLimitX32 : Int) (s : SwapState) : Except String SwapState := do
  let sqrtPriceStartX32 := s.sqrtPriceX32
  let (tickNextRaw, initialized, wordPos, _bitPos, bitmapAddress) :=
    provider.nextInitializedTickWithinOneWord s.tick zeroForOne pool.tickSpacing
  let (accounts1, lastSaved1) :=
    if s.lastSavedWordPos ≠ some wordPos then
      (s.accounts ++ [(bitmapAddress, false)], some wordPos)
    else (s.accounts, s.lastSavedWordPos)
  let tickNext :=
    if tickNextRaw < TickMath.MIN_TICK then TickMath.MIN_TICK
    else if tickNextRaw > TickMath.MAX_TICK then TickMath.MAX_TICK
    else tickNextRaw
  let sqrtPriceNextX32 ← TickMath.getSqrtRatioAtTick tickNext
  let target :=
    if (if zeroForOne then sqrtPriceNextX32 < sqrtPriceLimitX32
        else sqrtPriceNextX32 > sqrtPriceLimitX32) then sqrtPriceLimitX32
    else sqrtPriceNextX32
  let step ← SwapMath.computeSwapStep s.sqrtPriceX32 target s.liquidity
    s.amountSpecifiedRemaining pool.fee
  let (newRemaining, newCalculated) :=
    if exactInput then
      (s.amountSpecifiedRemaining - (step.amountIn + step.feeAmount),
        s.amountCalculated - step.amountOut)
    else
      (s.amountSpecifiedRemaining + step.amountOut,
        s.amountCalculated + (step.amountIn + step.feeAmount))
  if step.sqrtRatioNextX32 = sqrtPriceNextX32 then
    if initialized then do
      let (tickAddress, liquidityNetRaw) ← provider.getTick tickNext
      let liquidityNet := if zeroForOne then liquidityNetRaw * NEGATIVE_ONE else liquidityNetRaw
      pure { amountSpecifiedRemaining := newRemaining, amountCalculated := newCalculated,
             sqrtPriceX32 := step.sqrtRatioNextX32,
             tick := if zeroForOne then tickNext - 1 else tickNext,
             accounts := accounts1 ++ [(tickAddress, true)],
             liquidity := LiquidityMath.addDelta s.liquidity liquidityNet,
             lastSavedWordPos := lastSaved1 }
    else
      pure { amountSpecifiedRemaining := newRemaining, amountCalculated := newCalculated,
             sqrtPriceX32 := step.sqrtRatioNextX32,
             tick := if zeroForOne then tickNext - 1 else tickNext,
             accounts := accounts1, liquidity := s.liquidity, lastSavedWordPos := lastSaved1 }
  else if step.sqrtRatioNextX32 ≠ sqrtPriceStartX32 then do
    let newTick ← TickMath.getTickAtSqrtRatio step.sqrtRatioNextX32
    pure { amountSpecifiedRemaining := newRemaining, amountCalculated := newCalculated,
           sqrtPriceX32 := step.sqrtRatioNextX32, tick := newTick,
           accounts := accounts1, liquidity := s.liquidity, lastSavedWordPos := lastSaved1 }
  else
    pure { amountSpecifiedRemaining := newRemaining, amountCalculated := newCalculated,
           sqrtPriceX32 := step.sqrtRatioNextX32, tick := s.tick,
           accounts := accounts1, liquidity := s.liquidity, lastSavedWordPos := lastSaved1 }

/-- The budgeted while loop of Pool.swap: `budgetLeft` counts the remaining
allowed iterations (the source allows 9 body executions — loopCount 0
through 8 — and throws `account limit` at the check with loopCount 9). -/
def swapGo (pool : Pool) (provider : TickDataProvider) (zeroForOne exactInput : Bool)
    (sqrtPriceLimitX32 : Int) : Nat → SwapState → Except String SwapState
  | 0, s =>
    if swapLoopCond sqrtPriceLimitX32 s then .error errAccountLimit else .ok s
  | n + 1, s =>
    if swapLoopCond sqrtPriceLimitX32 s then do
      let s1 ← swapStepBody pool provider zeroForOne exactInput sqrtPriceLimitX32 s
      swapGo pool provider zeroForOne exactInput sqrtPriceLimitX32 n s1
    else .ok s

/-- The input needs more than `n` further loop iterations: the continue
condition holds now and keeps holding after each of the next `n` successful
body executions. -/
def wouldLoop (pool : Pool) (provider : TickDataProvider) (zeroForOne exactInput : Bool)
    (sqrtPriceLimitX32 : Int) : Nat → SwapState → Bool
  | 0, s => decide (swapLoopCond sqrtPriceLimitX32 s)
  | n + 1, s =>
    decide (swapLoopCond sqrtPriceLimitX32 s) &&
      (match swapStepBody pool provider zeroForOne exactInput sqrtPriceLimitX32 s with
        | .ok s1 => wouldLoop pool provider zeroForOne exactInput sqrtPriceLimitX32 n s1
        | .error _ => false)

/-- A swap that still needs to loop when the budget runs out errors with
`account limit`. -/
theorem wouldLoop_go_error (pool : Pool) (provider : TickDataProvider)
    (zeroForOne exactInput : Bool) (sqrtPriceLimitX32 : Int) :
    ∀ (n : Nat) (s : SwapState),
      wouldLoop pool provider zeroForOne exactInput sqrtPriceLimitX32 n s = true →
        swapGo pool provider zeroForOne exactInput sqrtPriceLimitX32 n s =
          .error errAccountLimit := by
  intro n
  induction n with
  | zero =>
    intro s h
    unfold wouldLoop at h
    unfold swapGo
    rw [if_pos (of_decide_eq_true h)]
  | succ n ih =>
    intro s h
    unfold wouldLoop at h
    rw [Bool.and_eq_true] at h
    obtain ⟨h1, h2⟩ := h
    unfold swapGo
    rw [if_pos (of_decide_eq_true h1)]
    cases hb : swapStepBody pool provider zeroForOne exactInput sqrtPriceLimitX32 s with
    | ok s1 =>
      rw [hb] at h2
      rw [ok_bind]
      exact ih s1 h2
    | error e =>
      rw [hb] at h2
      exact Bool.noConfusion h2

/-- Resolution of the optional price limit to its direction-dependent
default. -/
def resolvedLimit (zeroForOne : Bool) (sqrtPriceLimitX32? : Option Int) : Int :=
  sqrtPriceLimitX32?.getD
    (if zeroForOne then TickMath.MIN_SQRT_RATIO_X32 + 1 else TickMath.MAX_SQRT_RATIO_X32 - 1)

/-- Initial swap scratch state. -/
def initSwapState (pool : Pool) (amountSpecified : Int) : SwapState :=
  { amountSpecifiedRemaining := amountSpecified, amountCalculated := 0,
    sqrtPriceX32 := pool.sqrtRatioX32, tick := pool.tickCurrent, accounts := [],
    liquidity := pool.liquidity, lastSavedWordPos := none }

/-- Pool.swap from the budgeted variant (part_000): entry invariants, then
the loop with a budget of 9 body iterations. -/
def Pool.swap (pool : Pool) (provider : TickDataProvider) (zeroForOne : Bool)
    (amountSpecified : Int) (sqrtPriceLimitX32? : Option Int) : Except String SwapResult :=
  if amountSpecified ≠ 0 then
    if zeroForOne then
      if resolvedLimit zeroForOne sqrtPriceLimitX32? > TickMath.MIN_SQRT_RATIO_X32 then
        if resolvedLimit zeroForOne sqrtPriceLimitX32? < pool.sqrtRatioX32 then do
          let sf ← swapGo pool provider zeroForOne (decide (amountSpecified ≥ 0))
            (resolvedLimit zeroForOne sqrtPriceLimitX32?) 9 (initSwapState pool amountSpecified)
          pure ⟨sf.amountCalculated, sf.sqrtPriceX32, sf.liquidity, sf.tick, sf.accounts⟩
        else .error errRatioCurrent
      else .error errRatioMin
    else
      if resolvedLimit zeroForOne sqrtPriceLimitX32? < TickMath.MAX_SQRT_RATIO_X32 then
        if resolvedLimit zeroForOne sqrtPriceLimitX32? > pool.sqrtRatioX32 then do
          let sf ← swapGo pool provider zeroForOne (decide (amountSpecified ≥ 0))
            (resolvedLimit zeroForOne sqrtPriceLimitX32?) 9 (initSwapState pool amountSpecified)
          pure ⟨sf.amountCalculated, sf.sqrtPriceX32, sf.liquidity, sf.tick, sf.accounts⟩
        else .error errRatioCurrent
      else .error errRatioMax
  else .error errAmountZero

/-- C5.  A swap whose loop would exceed the per-call step budget (9 body
iterations) before the requested amount is satisfied fails with the
`account limit` resource-exhaustion error instead of returning a partial
result. -/
theorem swap_budget_exhaustion (pool : Pool) (provider : TickDataProvider) (zeroForOne : Bool)
    (amountSpecified : Int) (sqrtPriceLimitX32? : Option Int)
    (hamt : amountSpecified ≠ 0)
    (hlim : if zeroForOne then
        resolvedLimit zeroForOne sqrtPriceLimitX32? > TickMath.MIN_SQRT_RATIO_X32 ∧
          resolvedLimit zeroForOne sqrtPriceLimitX32? < pool.sqrtRatioX32
      else
        resolvedLimit zeroForOne sqrtPriceLimitX32? < TickMath.MAX_SQRT_RATIO_X32 ∧
          resolvedLimit zeroForOne sqrtPriceLimitX32? > pool.sqrtRatioX32)
    (hloop : wouldLoop pool provider zeroForOne (decide (amountSpecified ≥ 0))
        (resolvedLimit zeroForOne sqrtPriceLimitX32?) 9 (initSwapState pool amountSpecified) =
        true) :
    Pool.swap pool provider zeroForOne amountSpecified sqrtPriceLimitX32? =
      .error errAccountLimit := by
  have hgo := wouldLoop_go_error pool provider zeroForOne (decide (amountSpecified ≥ 0))
    (resolvedLimit zeroForOne sqrtPriceLimitX32?) 9 (initSwapState pool amountSpecified) hloop
  unfold Pool.swap
  rw [if_pos hamt]
  cases zeroForOne with
  | true =>
    rw [if_pos rfl] at hlim
    rw [if_pos rfl, if_pos hlim.1, if_pos hlim.2, hgo]
    rfl
  | false =>
    rw [if_neg Bool.false_ne_true] at hlim
    rw [if_neg Bool.false_ne_true, if_pos hlim.1, if_pos hlim.2, hgo]
    rfl

/-- A tick data provider that always reports the same uninitialized
candidate tick 0 in bitmap account 77: a degenerate on-chain layout under
which the swap loop makes no progress. -/
def budgetProbeProvider : TickDataProvider :=
  ⟨fun _ _ _ => (0, false, 0, 0, 77), fun _ => .ok (0, 0)⟩

set_option maxRecDepth 8000 in
/-- Witness for C5: a zero-liquidity pool at fee 500, price 4294967000,
tick -1, swapped one-for-zero with exact input 5 and price limit 2^40
against budgetProbeProvider, loops past the 9-iteration budget and fails
with the account limit error. -/
theorem swap_budget_exhaustion_witness :
    (5 : Int) ≠ 0 ∧
      Pool.swap ⟨500, 4294967000, 0, -1⟩ budgetProbeProvider false 5 (some 1099511627776) =
        .error errAccountLimit :=
  ⟨by decide,
    swap_budget_exhaustion ⟨500, 4294967000, 0, -1⟩ budgetProbeProvider false 5
      (some 1099511627776) (by decide) (by decide) (by rfl)⟩
